import Mathlib

set_option autoImplicit false
set_option linter.unusedVariables false

/-!
Shallow embedding of the Boto3Extended repository (src/Utils.py, src/S3.py,
src/Bedrock.py) and proofs about its batch-dispatch, chunking, idempotency,
error-handling and configuration-merging behaviour.

Machine conventions: Python ints are Nat, Python lists are List, Python dicts
are ordered association lists, Python exceptions are the error side of Except.
Provider SDK calls (boto3) are external collaborators; where a claim depends on
their behaviour they are modelled from the documented interface in the spec,
each such definition says so in its doc comment.
-/

/- ------------------------------------------------------------------ -/
/-  Utils.py                                                          -/
/- ------------------------------------------------------------------ -/

/-- Replacement of every occurrence of the single character c by the character
list t, the behaviour of Python str.replace for a one-character pattern,
acting on the character list of a string: each occurrence of c becomes t and
every other character is kept. -/
def strReplaceChar (c : Char) (t : List Char) (s : List Char) : List Char :=
  s.flatMap (fun ch => if ch = c then t else [ch])

/-- The replacement table XML_translator of Utils.formatXML, in source order:
apostrophe, double quote, ampersand, less-than, greater-than, carriage return,
newline.  Char.ofNat 39 is the apostrophe character. -/
def XML_translator : List (Char × List Char) :=
  [(Char.ofNat 39, "&apos;".data), ('"', "&quot;".data), ('&', "&amp;".data),
   ('<', "&lt;".data), ('>', "&gt;".data), ('\r', "&#13;".data),
   ('\n', "&#10;".data)]

/-- Utils.formatXML: applies the seven replacements of XML_translator
sequentially, in table order, to the character list of the input string. -/
def formatXML (s : List Char) : List Char :=
  XML_translator.foldl (fun acc p => strReplaceChar p.1 p.2 acc) s

/-- Utils.formatXML at the String level, as _deleteFromBucket applies it to
each key it is asked to delete. -/
def formatXMLStr (s : String) : String := ⟨formatXML s.data⟩

/-- The characters that Utils.formatXML rewrites. -/
def xmlSpecialChars : List Char :=
  [Char.ofNat 39, '"', '&', '<', '>', '\r', '\n']

/-- Recursion core of Utils.splitList.  The Python generator yields the slices
some_list[i:i + lenght] for i = 0, lenght, 2*lenght, ...; equivalently the
first slice of lenght elements followed by the slices of what remains.  The
fuel argument only bounds the number of slices (each step removes at least one
element when lenght is positive), so fuel = length of the list is enough. -/
def splitListGo {α : Type} : Nat → List α → Nat → List (List α)
  | 0, _, _ => []
  | _ + 1, [], _ => []
  | fuel + 1, a :: l, b => (a :: l).take b :: splitListGo fuel ((a :: l).drop b) b

/-- Utils.splitList: divide some_list into chunks of fixed lenght b.  For
b = 0 the Python range(0, len, 0) raises ValueError; the only caller passes
b = 1000, so that branch is modelled as returning no chunks. -/
def splitList {α : Type} (l : List α) (b : Nat) : List (List α) :=
  if b = 0 then [] else splitListGo l.length l b

/- ------------------------------------------------------------------ -/
/-  S3.py: provider state and per-item operations                     -/
/- ------------------------------------------------------------------ -/

/-- The modelled object-store world: each bucket name paired with the list of
keys it currently holds. -/
abbrev S3State := List (String × List String)

/-- Keys of the named bucket, when the bucket exists. -/
def lookupBucket : S3State → String → Option (List String)
  | [], _ => none
  | (n, ks) :: rest, b => if n = b then some ks else lookupBucket rest b

/-- Modelled from the spec: the provider put operation (upload_file) stores
the object under the given key in the named bucket. -/
def s3PutObject : S3State → String → String → S3State
  | [], _, _ => []
  | (n, ks) :: rest, bucket, key =>
      if n = bucket then (n, if key ∈ ks then ks else ks ++ [key]) :: rest
      else (n, ks) :: s3PutObject rest bucket key

/-- Result of the existence probe get_object in _uploadToBucket: either the
object is found, or the call raises a ClientError carrying an error code. -/
inductive ProbeResult where
  | found
  | clientError (code : String)
deriving DecidableEq

/-- Modelled from the spec: get_object succeeds when the key is present,
raises ClientError with code NoSuchKey when the bucket exists but the key is
absent, and raises code NoSuchBucket when the bucket does not exist. -/
def s3GetObjectProbe (st : S3State) (bucket key : String) : ProbeResult :=
  match lookupBucket st bucket with
  | none => .clientError "NoSuchBucket"
  | some ks => if key ∈ ks then .found else .clientError "NoSuchKey"

/-- S3.py _uploadToBucket given the outcome of its existence probe: a found
object returns 0 without uploading; a ClientError with code NoSuchKey is
absorbed, the file is uploaded and 1 is returned; a ClientError with any
other code is re-raised. -/
def uploadToBucketWith (probe : ProbeResult) (st : S3State) (bucket : String)
    (paths : String × String) : Except String (Nat × S3State) :=
  match probe with
  | .found => .ok (0, st)
  | .clientError code =>
      if code = "NoSuchKey" then .ok (1, s3PutObject st bucket paths.2)
      else .error code

/-- S3.py _uploadToBucket run against the modelled provider state: the probe
outcome is determined by the current bucket contents. -/
def uploadToBucket (st : S3State) (bucket : String) (paths : String × String) :
    Except String (Nat × S3State) :=
  uploadToBucketWith (s3GetObjectProbe st bucket paths.2) st bucket paths

/-- The local filesystem as seen by os.path.exists and download_file: the
list of local paths that exist. -/
structure LocalFS where
  files : List String
deriving DecidableEq

/-- S3.py _downloadFromBucket: when the local path already exists it returns
0 without downloading; otherwise download_file fetches the key (raising a
ClientError when the bucket or the key is missing, modelled from the spec)
and 1 is returned. -/
def downloadFromBucket (fs : LocalFS) (st : S3State) (bucket : String)
    (paths : String × String) : Except String (Nat × LocalFS) :=
  if paths.1 ∈ fs.files then .ok (0, fs)
  else
    match lookupBucket st bucket with
    | none => .error "NoSuchBucket"
    | some ks =>
        if paths.2 ∈ ks then .ok (1, ⟨paths.1 :: fs.files⟩)
        else .error "404"

/-- Remove the given keys from the named bucket. -/
def removeKeys (st : S3State) (bucket : String) (keys : List String) : S3State :=
  st.map (fun p =>
    if p.1 = bucket then (p.1, p.2.filter (fun k => decide (k ∉ keys))) else p)

/-- Modelled from the spec: the provider batch delete (delete_objects) removes
the requested keys that exist and reports every requested key in the Deleted
list of its response (deletion of an absent key is a silent success), with no
Errors entry.  The pair returned is (length of Deleted, length of Errors),
which is how _deleteFromBucket reads the response. -/
def s3DeleteObjects (st : S3State) (bucket : String) (keys : List String) :
    (Nat × Nat) × S3State :=
  ((keys.length, 0), removeKeys st bucket keys)

/-- S3.py _deleteFromBucket: sends formatXML of each requested path as the key
to the provider batch delete and returns the pair of counts read from the
response. -/
def deleteFromBucket (st : S3State) (bucket : String) (paths : List String) :
    (Nat × Nat) × S3State :=
  s3DeleteObjects st bucket (paths.map formatXMLStr)

/-- Remove the bucket itself. -/
def removeBucket (st : S3State) (bucket : String) : S3State :=
  st.filter (fun p => decide (p.1 ≠ bucket))

/-- Modelled from the spec: the provider delete_bucket call removes an
existing empty bucket, raises a ClientError with code BucketNotEmpty when the
bucket still holds objects, and raises NoSuchBucket when it does not exist. -/
def s3DeleteBucket (st : S3State) (bucket : String) : Except String S3State :=
  match lookupBucket st bucket with
  | none => .error "NoSuchBucket"
  | some ks =>
      if ks = [] then .ok (removeBucket st bucket) else .error "BucketNotEmpty"

/-- Observable outcome of S3.py deleteBucket: a successful deletion printing
the (deleted, errors) summary, the caught BucketNotEmpty condition printing
the please-use-auto_empty message, or a re-raised error. -/
inductive DeleteBucketOutcome where
  | deleted (nDeleted nErrors : Nat)
  | notEmptyReported (nDeleted nErrors : Nat)
  | raised (e : String)
deriving DecidableEq

/-- The auto_empty phase of S3.py deleteBucket: list_objects_v2 reports
Contents only for a non-empty bucket; the paginator then yields the current
contents in pages of at most 1000 keys (modelled from the spec) and each page
is passed to _deleteFromBucket, accumulating the (deleted, errors) counts. -/
def emptyBucketPhase (st : S3State) (bucket : String) : (Nat × Nat) × S3State :=
  let contents := (lookupBucket st bucket).getD []
  if contents = [] then ((0, 0), st)
  else
    (splitList contents 1000).foldl
      (fun acc page =>
        let r := deleteFromBucket acc.2 bucket page
        ((acc.1.1 + r.1.1, acc.1.2 + r.1.2), r.2))
      ((0, 0), st)

/-- S3.py deleteBucket: optionally empties the bucket first, then calls the
provider delete_bucket inside try/except; a ClientError whose text contains
BucketNotEmpty is caught and reported, any other ClientError is re-raised. -/
def deleteBucket (st : S3State) (bucket : String) (auto_empty : Bool) :
    DeleteBucketOutcome × S3State :=
  let phase := if auto_empty then emptyBucketPhase st bucket else ((0, 0), st)
  match s3DeleteBucket phase.2 bucket with
  | .ok st2 => (.deleted phase.1.1 phase.1.2, st2)
  | .error e =>
      if e = "BucketNotEmpty" then (.notEmptyReported phase.1.1 phase.1.2, phase.2)
      else (.raised e, phase.2)

/- ------------------------------------------------------------------ -/
/-  The batch dispatcher and the batch operations built on it         -/
/- ------------------------------------------------------------------ -/

/-- Modelled from the spec: tqdm.contrib.concurrent.process_map, the parallel
map utility every batch operation dispatches through.  Per the dispatcher
contract, every item is dispatched exactly once and the results are collected
in submission order regardless of completion order, so its value is the
ordered list of per-item outcomes. -/
def process_map {α β : Type} (f : α → β) (items : List α) : List β :=
  items.map f

/-- Bucket.uploadFiles: zips the local paths with the bucket keys and
dispatches _uploadToBucket over the pairs through process_map; the value is
the ordered list of per-item results. -/
def uploadFilesResults (st : S3State) (bucket : String)
    (localpaths s3paths : List String) : List (Except String (Nat × S3State)) :=
  process_map (fun paths => uploadToBucket st bucket paths)
    (List.zip localpaths s3paths)

/-- Bucket.downloadFiles: zips the local paths with the bucket keys and
dispatches _downloadFromBucket over the pairs through process_map. -/
def downloadFilesResults (fs : LocalFS) (st : S3State) (bucket : String)
    (localpaths s3paths : List String) : List (Except String (Nat × LocalFS)) :=
  process_map (fun paths => downloadFromBucket fs st bucket paths)
    (List.zip localpaths s3paths)

/-- Bucket.deleteFiles: splits the key list into chunks of at most 1000 keys
with Utils.splitList and dispatches _deleteFromBucket over the chunks through
process_map. -/
def deleteFilesResults (st : S3State) (bucket : String) (s3paths : List String) :
    List ((Nat × Nat) × S3State) :=
  process_map (fun chunk => deleteFromBucket st bucket chunk)
    (splitList s3paths 1000)

/-- Modelled from the spec: the batch upload when the per-item probe outcome
is supplied by the environment probeOf.  process_map propagates an exception
raised in a worker to the caller instead of returning a partial result list,
so the batch value is either the ordered list of per-item return values or
the first raised error. -/
def uploadFilesRunWith (probeOf : String × String → ProbeResult) (st : S3State)
    (bucket : String) : List (String × String) → Except String (List Nat)
  | [] => .ok []
  | p :: rest =>
      match uploadToBucketWith (probeOf p) st bucket p with
      | .error e => .error e
      | .ok r =>
          match uploadFilesRunWith probeOf st bucket rest with
          | .error e => .error e
          | .ok rs => .ok (r.1 :: rs)

/- ------------------------------------------------------------------ -/
/-  Bedrock.py                                                        -/
/- ------------------------------------------------------------------ -/

/-- A value stored in a call configuration dictionary (strings, integers, or
the decimal 0.9, modelled as a rational). -/
inductive ConfVal where
  | str (v : String)
  | int (v : Int)
  | rat (v : Rat)
deriving DecidableEq

/-- A Python dict as an ordered association list. -/
abbrev Dict := List (String × ConfVal)

/-- Python dict assignment d[k] = v: an existing key keeps its position and
gets the new value, a new key is appended at the end. -/
def dictSet : Dict → String → ConfVal → Dict
  | [], k, v => [(k, v)]
  | (k0, v0) :: rest, k, v =>
      if k0 = k then (k0, v) :: rest else (k0, v0) :: dictSet rest k v

/-- Python dict.update: assigns every entry of overrides into d, in order. -/
def dictUpdate (d : Dict) (overrides : Dict) : Dict :=
  overrides.foldl (fun acc p => dictSet acc p.1 p.2) d

/-- Python dict lookup d[k]. -/
def dictGet : Dict → String → Option ConfVal
  | [], _ => none
  | (k0, v0) :: rest, k => if k0 = k then some v0 else dictGet rest k

/-- Bedrock.py _bedrock_call: invokes the model (the generated completion for
a prompt is supplied by the environment completionOf, and the client built
from profile_name and region_name is external I/O), then reports the
completion together with the token estimates int(len(prompt) / 6) and
int(len(completion) / 6).  Python true division followed by int truncation on
a nonnegative integer is floor division, hence Nat division here. -/
def bedrock_call (completionOf : String → String)
    (profile_name region_name : String) (call_conf : Dict) (prompt : String) :
    String × Nat × Nat :=
  let completion := completionOf prompt
  (completion, prompt.length / 6, completion.length / 6)

/-- The attribute state of a Bedrock.py BedrockModel object.  call_conf is
none until the first invocation sets it. -/
structure BedrockModel where
  default_call_conf : Dict
  call_conf : Option Dict
  model_conf : String
  region_name : String
  profile_name : String
deriving DecidableEq

/-- BedrockModel.__init__: stores the documented default call configuration
(model_id, max_tokens_to_sample 4000, temperature 0, top_p 0.9, accept and
content_type application/json) and the user inputs. -/
def mkBedrockModel (region_name profile_name model_id : String) : BedrockModel :=
  ⟨[("model_id", .str model_id), ("max_tokens_to_sample", .int 4000),
    ("temperature", .int 0), ("top_p", .rat (9 / 10)),
    ("accept", .str "application/json"),
    ("content_type", .str "application/json")],
   none, model_id, region_name, profile_name⟩

/-- BedrockModel.single_invoke.  The source line self.call_conf =
self.default_call_conf binds both attributes to the same dict object, and
self.call_conf.update(call_conf) then mutates that shared dict in place, so
after the call default_call_conf also holds the merged dictionary; the merged
dictionary is what _bedrock_call receives. -/
def single_invoke (m : BedrockModel) (completionOf : String → String)
    (prompt : String) (call_conf : Dict) : BedrockModel × (String × Nat × Nat) :=
  let merged := dictUpdate m.default_call_conf call_conf
  (⟨merged, some merged, m.model_conf, m.region_name, m.profile_name⟩,
   bedrock_call completionOf m.profile_name m.region_name merged prompt)

/-- BedrockModel.invoke: same default-merging aliasing as single_invoke, then
dispatches _bedrock_call over the prompts through process_map. -/
def invoke (m : BedrockModel) (completionOf : String → String)
    (prompts : List String) (call_conf : Dict) :
    BedrockModel × List (String × Nat × Nat) :=
  let merged := dictUpdate m.default_call_conf call_conf
  (⟨merged, some merged, m.model_conf, m.region_name, m.profile_name⟩,
   process_map
     (fun p => bedrock_call completionOf m.profile_name m.region_name merged p)
     prompts)

/- ------------------------------------------------------------------ -/
/-  Lemmas about strReplaceChar and formatXML                         -/
/- ------------------------------------------------------------------ -/

lemma strReplaceChar_append (c : Char) (t x y : List Char) :
    strReplaceChar c t (x ++ y) = strReplaceChar c t x ++ strReplaceChar c t y := by
  simp [strReplaceChar]

lemma strReplaceChar_cons (c : Char) (t : List Char) (a : Char) (s : List Char) :
    strReplaceChar c t (a :: s) =
      (if a = c then t else [a]) ++ strReplaceChar c t s := by
  simp [strReplaceChar]

lemma length_le_strReplaceChar (c : Char) {t : List Char} (ht : t ≠ [])
    (s : List Char) : s.length ≤ (strReplaceChar c t s).length := by
  induction s with
  | nil => simp [strReplaceChar]
  | cons a s ih =>
      rw [strReplaceChar_cons]
      have h1 : 1 ≤ (if a = c then t else [a]).length := by
        split
        · exact List.length_pos.mpr ht
        · simp
      simp only [List.length_append, List.length_cons]
      omega

lemma length_lt_strReplaceChar {c : Char} {t : List Char} (ht : 2 ≤ t.length)
    {s : List Char} (hc : c ∈ s) : s.length < (strReplaceChar c t s).length := by
  induction s with
  | nil => cases hc
  | cons a s ih =>
      rw [strReplaceChar_cons]
      simp only [List.length_append, List.length_cons]
      rcases List.mem_cons.mp hc with h | hmem
      · subst h
        rw [if_pos rfl]
        have h2 : s.length ≤ (strReplaceChar c t s).length :=
          length_le_strReplaceChar c (by intro he; rw [he] at ht; simp at ht) s
        omega
      · have h1 : 1 ≤ (if a = c then t else [a]).length := by
          split
          · omega
          · simp
        have h2 := ih hmem
        omega

lemma mem_strReplaceChar_of_ne {d c : Char} (t : List Char) (hdc : d ≠ c)
    {s : List Char} (hm : d ∈ s) : d ∈ strReplaceChar c t s := by
  induction s with
  | nil => cases hm
  | cons a s ih =>
      rw [strReplaceChar_cons]
      rcases List.mem_cons.mp hm with h | hmem
      · subst h
        exact List.mem_append_left _ (by simp [hdc])
      · exact List.mem_append_right _ (ih hmem)

lemma formatXML_append (x y : List Char) :
    formatXML (x ++ y) = formatXML x ++ formatXML y := by
  simp only [formatXML, XML_translator, List.foldl_cons, List.foldl_nil,
    strReplaceChar_append]

/-- Foldl of the replacement table does not shrink the character list when
every replacement target is nonempty. -/
lemma length_le_foldl_replace :
    ∀ (table : List (Char × List Char)), (∀ p ∈ table, p.2 ≠ []) →
      ∀ s : List Char,
        s.length ≤ (table.foldl (fun acc q => strReplaceChar q.1 q.2 acc) s).length
  | [], _, s => le_rfl
  | q :: table, h, s => by
      simp only [List.foldl_cons]
      exact le_trans
        (length_le_strReplaceChar q.1 (h q (List.mem_cons_self q table)) s)
        (length_le_foldl_replace table
          (fun p hp => h p (List.mem_cons_of_mem q hp)) _)

/-- Foldl of the replacement table strictly grows the character list when the
list holds the character that the entry p rewrites, the target of p has at
least two characters, every target of the table is nonempty, and no entry
before p rewrites that character itself. -/
lemma length_lt_foldl_replace (d : Char) :
    ∀ (pre : List (Char × List Char)) (p : Char × List Char)
      (post : List (Char × List Char)) (s : List Char), d ∈ s →
      (∀ r ∈ pre ++ p :: post, r.2 ≠ []) →
      p.1 = d → 2 ≤ p.2.length → (∀ q ∈ pre, q.1 ≠ d) →
      s.length <
        ((pre ++ p :: post).foldl (fun acc q => strReplaceChar q.1 q.2 acc) s).length
  | [], p, post, s, hm, hne, hpd, hp2, hpre => by
      simp only [List.nil_append, List.foldl_cons]
      exact lt_of_lt_of_le
        (length_lt_strReplaceChar hp2 (hpd.symm ▸ hm))
        (length_le_foldl_replace post
          (fun r hr => hne r (List.mem_cons_of_mem p hr)) _)
  | q0 :: pre, p, post, s, hm, hne, hpd, hp2, hpre => by
      simp only [List.cons_append, List.foldl_cons]
      have hd0 : d ≠ q0.1 :=
        fun h => hpre q0 (List.mem_cons_self q0 pre) h.symm
      exact lt_of_le_of_lt
        (length_le_strReplaceChar q0.1 (hne q0 (List.mem_cons_self q0 _)) s)
        (length_lt_foldl_replace d pre p post _
          (mem_strReplaceChar_of_ne q0.2 hd0 hm)
          (fun r hr => hne r (List.mem_cons_of_mem q0 hr))
          hpd hp2
          (fun r hr => hpre r (List.mem_cons_of_mem q0 hr)))

lemma length_lt_formatXML {d : Char} (hd : d ∈ xmlSpecialChars)
    {s : List Char} (hm : d ∈ s) : s.length < (formatXML s).length := by
  rcases show d = Char.ofNat 39 ∨ d = '"' ∨ d = '&' ∨ d = '<' ∨ d = '>' ∨
      d = '\r' ∨ d = '\n' by simpa [xmlSpecialChars] using hd with
    rfl | rfl | rfl | rfl | rfl | rfl | rfl
  · exact length_lt_foldl_replace _ [] (Char.ofNat 39, "&apos;".data) _ s hm
      (by decide) rfl (by decide) (by decide)
  · exact length_lt_foldl_replace _ [(Char.ofNat 39, "&apos;".data)]
      ('"', "&quot;".data) _ s hm (by decide) rfl (by decide) (by decide)
  · exact length_lt_foldl_replace _
      [(Char.ofNat 39, "&apos;".data), ('"', "&quot;".data)]
      ('&', "&amp;".data) _ s hm (by decide) rfl (by decide) (by decide)
  · exact length_lt_foldl_replace _
      [(Char.ofNat 39, "&apos;".data), ('"', "&quot;".data),
        ('&', "&amp;".data)]
      ('<', "&lt;".data) _ s hm (by decide) rfl (by decide) (by decide)
  · exact length_lt_foldl_replace _
      [(Char.ofNat 39, "&apos;".data), ('"', "&quot;".data),
        ('&', "&amp;".data), ('<', "&lt;".data)]
      ('>', "&gt;".data) _ s hm (by decide) rfl (by decide) (by decide)
  · exact length_lt_foldl_replace _
      [(Char.ofNat 39, "&apos;".data), ('"', "&quot;".data),
        ('&', "&amp;".data), ('<', "&lt;".data), ('>', "&gt;".data)]
      ('\r', "&#13;".data) _ s hm (by decide) rfl (by decide) (by decide)
  · exact length_lt_foldl_replace _
      [(Char.ofNat 39, "&apos;".data), ('"', "&quot;".data),
        ('&', "&amp;".data), ('<', "&lt;".data), ('>', "&gt;".data),
        ('\r', "&#13;".data)]
      ('\n', "&#10;".data) _ s hm (by decide) rfl (by decide) (by decide)

/- ------------------------------------------------------------------ -/
/-  Lemmas about splitList                                            -/
/- ------------------------------------------------------------------ -/

lemma splitListGo_flatten {α : Type} (b : Nat) (hb : 0 < b) :
    ∀ (n : Nat) (l : List α), l.length ≤ n → (splitListGo n l b).flatten = l
  | 0, [], _ => rfl
  | 0, a :: l, h => absurd h (by simp)
  | n + 1, [], _ => rfl
  | n + 1, a :: l, h => by
      simp only [splitListGo, List.flatten_cons]
      rw [splitListGo_flatten b hb n ((a :: l).drop b)
        (by simp only [List.length_drop, List.length_cons]
            simp only [List.length_cons] at h
            omega)]
      exact List.take_append_drop b (a :: l)

lemma splitListGo_length {α : Type} (b : Nat) (hb : 0 < b) :
    ∀ (n : Nat) (l : List α), l.length ≤ n →
      (splitListGo n l b).length = (l.length + b - 1) / b
  | 0, [], _ => by
      simp [splitListGo, Nat.div_eq_of_lt (show b - 1 < b by omega)]
  | 0, a :: l, h => absurd h (by simp)
  | n + 1, [], _ => by
      simp [splitListGo, Nat.div_eq_of_lt (show b - 1 < b by omega)]
  | n + 1, a :: l, h => by
      have h1 : l.length + 1 ≤ n + 1 := by simpa using h
      have hdrop : ((a :: l).drop b).length ≤ n := by
        simp only [List.length_drop, List.length_cons]
        omega
      simp only [splitListGo, List.length_cons]
      rw [splitListGo_length b hb n ((a :: l).drop b) hdrop]
      simp only [List.length_drop, List.length_cons]
      rw [show l.length + 1 + b - 1 = (l.length + 1 - 1) + b by omega,
        Nat.add_div_right _ hb]
      by_cases hbK : b ≤ l.length + 1
      · rw [show l.length + 1 - b + b - 1 = l.length + 1 - 1 by omega]
      · rw [show l.length + 1 - b = 0 by omega]
        rw [Nat.div_eq_of_lt (show 0 + b - 1 < b by omega),
          Nat.div_eq_of_lt (show l.length + 1 - 1 < b by omega)]

lemma splitListGo_chunk_le {α : Type} (b : Nat) :
    ∀ (n : Nat) (l : List α) (c : List α), c ∈ splitListGo n l b → c.length ≤ b
  | 0, _, c, hc => absurd hc (by simp [splitListGo])
  | n + 1, [], c, hc => absurd hc (by simp [splitListGo])
  | n + 1, a :: l, c, hc => by
      simp only [splitListGo, List.mem_cons] at hc
      rcases hc with rfl | hc
      · exact List.length_take_le b (a :: l)
      · exact splitListGo_chunk_le b n ((a :: l).drop b) c hc

lemma splitList_flatten {α : Type} (b : Nat) (hb : 0 < b) (l : List α) :
    (splitList l b).flatten = l := by
  rw [splitList, if_neg (by omega)]
  exact splitListGo_flatten b hb l.length l le_rfl

lemma splitList_length {α : Type} (b : Nat) (hb : 0 < b) (l : List α) :
    (splitList l b).length = (l.length + b - 1) / b := by
  rw [splitList, if_neg (by omega)]
  exact splitListGo_length b hb l.length l le_rfl

lemma splitList_chunk_le {α : Type} (b : Nat) (l : List α) (c : List α)
    (hc : c ∈ splitList l b) : c.length ≤ b := by
  rw [splitList] at hc
  by_cases h : b = 0
  · rw [if_pos h] at hc
    cases hc
  · rw [if_neg h] at hc
    exact splitListGo_chunk_le b l.length l c hc

/- ------------------------------------------------------------------ -/
/-  Lemmas about the S3 state                                         -/
/- ------------------------------------------------------------------ -/

lemma lookupBucket_s3PutObject (st : S3State) (bucket key : String)
    (ks : List String) (h : lookupBucket st bucket = some ks) :
    ∃ ks2, lookupBucket (s3PutObject st bucket key) bucket = some ks2 ∧
      key ∈ ks2 := by
  induction st with
  | nil => cases h
  | cons p st ih =>
      obtain ⟨n, ks0⟩ := p
      by_cases hn : n = bucket
      · refine ⟨if key ∈ ks0 then ks0 else ks0 ++ [key], ?_, ?_⟩
        · simp only [s3PutObject, lookupBucket, if_pos hn]
        · split
          · assumption
          · simp
      · simp only [lookupBucket, if_neg hn] at h
        rcases ih h with ⟨ks2, hlk, hmem⟩
        exact ⟨ks2,
          by simp only [s3PutObject, lookupBucket, if_neg hn]; exact hlk, hmem⟩

/- ------------------------------------------------------------------ -/
/-  Claim theorems                                                    -/
/- ------------------------------------------------------------------ -/

/-- C1: for every ordered input sequence of N work items submitted to a batch
operation (uploadFiles, downloadFiles, deleteFiles, BedrockModel.invoke), the
collected result sequence has length N and its i-th entry is the outcome of
the i-th work item regardless of completion order, and an empty item list
yields an empty result (a no-op); each of the four batch operations collects
its results through process_map over its work item list. -/
theorem batch_results_ordered :
    (∀ (α β : Type) (f : α → β) (items : List α),
        (process_map f items).length = items.length ∧
        process_map f ([] : List α) = [] ∧
        ∀ (i : Nat) (hi : i < items.length)
          (hj : i < (process_map f items).length),
          (process_map f items).get ⟨i, hj⟩ = f (items.get ⟨i, hi⟩)) ∧
    (∀ (st : S3State) (bucket : String) (localpaths s3paths : List String),
        uploadFilesResults st bucket localpaths s3paths =
          process_map (fun paths => uploadToBucket st bucket paths)
            (List.zip localpaths s3paths)) ∧
    (∀ (fs : LocalFS) (st : S3State) (bucket : String)
        (localpaths s3paths : List String),
        downloadFilesResults fs st bucket localpaths s3paths =
          process_map (fun paths => downloadFromBucket fs st bucket paths)
            (List.zip localpaths s3paths)) ∧
    (∀ (st : S3State) (bucket : String) (s3paths : List String),
        deleteFilesResults st bucket s3paths =
          process_map (fun chunk => deleteFromBucket st bucket chunk)
            (splitList s3paths 1000)) ∧
    (∀ (m : BedrockModel) (completionOf : String → String)
        (prompts : List String) (call_conf : Dict),
        (invoke m completionOf prompts call_conf).2 =
          process_map
            (fun p => bedrock_call completionOf m.profile_name m.region_name
              (dictUpdate m.default_call_conf call_conf) p)
            prompts) := by
  refine ⟨?_, fun _ _ _ _ => rfl, fun _ _ _ _ _ => rfl, fun _ _ _ => rfl,
    fun _ _ _ _ => rfl⟩
  intro α β f items
  refine ⟨by simp [process_map], rfl, ?_⟩
  intro i hi hj
  simp [process_map, List.get_eq_getElem, List.getElem_map]

/-- Witness for batch_results_ordered at a concrete dispatch. -/
theorem batch_results_ordered_witness :
    (process_map (fun n : Nat => n * 2) [7, 9]).length = 2 ∧
    (process_map (fun n : Nat => n * 2) [7, 9]).get
      ⟨1, by simp [process_map]⟩ = 18 := by
  have h := batch_results_ordered.1 Nat Nat (fun n => n * 2) [7, 9]
  exact ⟨h.1, h.2.2 1 (by decide) (by simp [process_map])⟩

/-- C2: for a key list of length K, the chunking that deleteFiles performs
via splitList with bound 1000 yields exactly ceil(K / 1000) chunks, written
(K + 1000 - 1) / 1000 and characterised by K ≤ 1000 * chunks < K + 1000
(for positive chunk counts); every chunk has length at most 1000; and the
chunks concatenate back to the original key list in order, so no key is
duplicated or dropped. -/
theorem deleteFiles_chunking (s3paths : List String) :
    (splitList s3paths 1000).length = (s3paths.length + 1000 - 1) / 1000 ∧
    s3paths.length ≤ 1000 * (splitList s3paths 1000).length ∧
    1000 * (splitList s3paths 1000).length < s3paths.length + 1000 ∧
    (∀ c ∈ splitList s3paths 1000, c.length ≤ 1000) ∧
    (splitList s3paths 1000).flatten = s3paths ∧
    ∀ (st : S3State) (bucket : String),
      deleteFilesResults st bucket s3paths =
        process_map (fun chunk => deleteFromBucket st bucket chunk)
          (splitList s3paths 1000) := by
  have hlen := splitList_length 1000 (by omega) s3paths
  refine ⟨hlen, ?_, ?_, fun c hc => splitList_chunk_le 1000 s3paths c hc,
    splitList_flatten 1000 (by omega) s3paths, fun _ _ => rfl⟩
  · rw [hlen]; omega
  · rw [hlen]; omega

/-- Witness for deleteFiles_chunking at a concrete key list. -/
theorem deleteFiles_chunking_witness :
    (splitList ["k1", "k2"] 1000).length = 1 ∧
    (splitList ["k1", "k2"] 1000).flatten = ["k1", "k2"] ∧
    (["k1", "k2"].take 1000).length ≤ 1000 := by
  have h := deleteFiles_chunking ["k1", "k2"]
  exact ⟨by simpa using h.1, h.2.2.2.2.1,
    h.2.2.2.1 (["k1", "k2"].take 1000) (by decide)⟩

/-- C9: uploadFiles and downloadFiles pair localpaths with s3paths by zip
before dispatch, so when the lengths differ exactly
min(len localpaths, len s3paths) work items are dispatched, the i-th
dispatched pair is (localpaths[i], s3paths[i]), and the excess entries of the
longer list are silently dropped: the operations are total and raise no error
for the mismatch. -/
theorem zip_truncates_mismatched_lists :
    (∀ (st : S3State) (bucket : String) (localpaths s3paths : List String),
        (uploadFilesResults st bucket localpaths s3paths).length =
          min localpaths.length s3paths.length) ∧
    (∀ (fs : LocalFS) (st : S3State) (bucket : String)
        (localpaths s3paths : List String),
        (downloadFilesResults fs st bucket localpaths s3paths).length =
          min localpaths.length s3paths.length) ∧
    (∀ (localpaths s3paths : List String) (i : Nat)
        (h1 : i < localpaths.length) (h2 : i < s3paths.length)
        (hz : i < (List.zip localpaths s3paths).length),
        (List.zip localpaths s3paths).get ⟨i, hz⟩ =
          (localpaths.get ⟨i, h1⟩, s3paths.get ⟨i, h2⟩)) := by
  refine ⟨?_, ?_, ?_⟩
  · intro st bucket l s
    simp [uploadFilesResults, process_map]
  · intro fs st bucket l s
    simp [downloadFilesResults, process_map]
  · intro l s i h1 h2 hz
    simp [List.get_eq_getElem, List.getElem_zip]

/-- Witness for zip_truncates_mismatched_lists at lists of unequal length. -/
theorem zip_truncates_mismatched_lists_witness :
    (uploadFilesResults [] "b" ["l1", "l2"] ["k1"]).length = 1 ∧
    (List.zip ["l1", "l2"] ["k1"]).get ⟨0, by decide⟩ = ("l1", "k1") := by
  have h := zip_truncates_mismatched_lists
  exact ⟨by simpa using h.1 [] "b" ["l1", "l2"] ["k1"],
    h.2.2 ["l1", "l2"] ["k1"] 0 (by decide) (by decide) (by decide)⟩

lemma probe_found {st : S3State} {bucket key : String} {ks : List String}
    (hlk : lookupBucket st bucket = some ks) (hk : key ∈ ks) :
    s3GetObjectProbe st bucket key = .found := by
  simp [s3GetObjectProbe, hlk, hk]

lemma probe_noSuchKey {st : S3State} {bucket key : String} {ks : List String}
    (hlk : lookupBucket st bucket = some ks) (hk : key ∉ ks) :
    s3GetObjectProbe st bucket key = .clientError "NoSuchKey" := by
  simp [s3GetObjectProbe, hlk, hk]

lemma probe_noSuchBucket {st : S3State} {bucket key : String}
    (hlk : lookupBucket st bucket = none) :
    s3GetObjectProbe st bucket key = .clientError "NoSuchBucket" := by
  simp [s3GetObjectProbe, hlk]

/-- C3: idempotent transfer: whenever a run of _uploadToBucket or
_downloadFromBucket returns 1 (Success: the transfer was performed), running
the same operation again with the same inputs on the state the first run
produced returns 0 (Skipped), because the operation first checks existence at
the destination and only transfers when absent. -/
theorem transfer_idempotent :
    (∀ (st : S3State) (bucket : String) (paths : String × String)
        (st2 : S3State), uploadToBucket st bucket paths = .ok (1, st2) →
        uploadToBucket st2 bucket paths = .ok (0, st2)) ∧
    (∀ (fs : LocalFS) (st : S3State) (bucket : String)
        (paths : String × String) (fs2 : LocalFS),
        downloadFromBucket fs st bucket paths = .ok (1, fs2) →
        downloadFromBucket fs2 st bucket paths = .ok (0, fs2)) := by
  constructor
  · intro st bucket paths st2 h
    simp only [uploadToBucket] at h ⊢
    cases hlk : lookupBucket st bucket with
    | none =>
        rw [probe_noSuchBucket hlk] at h
        simp [uploadToBucketWith] at h
    | some ks =>
        by_cases hk : paths.2 ∈ ks
        · rw [probe_found hlk hk] at h
          simp [uploadToBucketWith] at h
        · rw [probe_noSuchKey hlk hk] at h
          simp [uploadToBucketWith] at h
          rcases lookupBucket_s3PutObject st bucket paths.2 ks hlk with
            ⟨ks2, hlk2, hmem⟩
          rw [← h, probe_found hlk2 hmem]
          simp [uploadToBucketWith]
  · intro fs st bucket paths fs2 h
    have hfs2 : paths.1 ∈ fs2.files := by
      by_cases hl : paths.1 ∈ fs.files
      · simp [downloadFromBucket, hl] at h
      · cases hlk : lookupBucket st bucket with
        | none => simp [downloadFromBucket, hl, hlk] at h
        | some ks =>
            by_cases hk : paths.2 ∈ ks
            · simp [downloadFromBucket, hl, hlk, hk] at h
              rw [← h]
              exact List.mem_cons_self _ _
            · simp [downloadFromBucket, hl, hlk, hk] at h
    simp [downloadFromBucket, hfs2]

/-- Witness for transfer_idempotent: a second upload and a second download of
the same item are skipped after a first successful run. -/
theorem transfer_idempotent_witness :
    uploadToBucket [("b", ["key"])] "b" ("loc", "key") =
      .ok (0, [("b", ["key"])]) ∧
    downloadFromBucket ⟨["loc"]⟩ [("b", ["key"])] "b" ("loc", "key") =
      .ok (0, ⟨["loc"]⟩) := by
  constructor
  · exact transfer_idempotent.1 [("b", [])] "b" ("loc", "key")
      [("b", ["key"])] rfl
  · exact transfer_idempotent.2 ⟨[]⟩ [("b", ["key"])] "b" ("loc", "key")
      ⟨["loc"]⟩ rfl

/-- C4: during the existence probe before upload a ClientError with code
NoSuchKey is absorbed: the item is uploaded and classified 1 (Success) and
nothing propagates; a ClientError with any other code is re-raised out of the
per-item operation, and the enclosing batch then raises instead of returning
a partial result list. -/
theorem upload_probe_error_propagation :
    (∀ (st : S3State) (bucket : String) (paths : String × String),
        uploadToBucketWith (.clientError "NoSuchKey") st bucket paths =
          .ok (1, s3PutObject st bucket paths.2)) ∧
    (∀ (code : String), code ≠ "NoSuchKey" →
      ∀ (st : S3State) (bucket : String) (paths : String × String),
        uploadToBucketWith (.clientError code) st bucket paths =
          .error code) ∧
    (∀ (probeOf : String × String → ProbeResult) (st : S3State)
        (bucket : String) (items : List (String × String)),
        (∃ p ∈ items, ∃ code, code ≠ "NoSuchKey" ∧
            probeOf p = .clientError code) →
        ∃ e, uploadFilesRunWith probeOf st bucket items = .error e) := by
  refine ⟨fun _ _ _ => by simp [uploadToBucketWith],
    fun code hcode _ _ _ => by simp [uploadToBucketWith, hcode], ?_⟩
  intro probeOf st bucket items h
  induction items with
  | nil =>
      rcases h with ⟨p, hp, -⟩
      cases hp
  | cons q rest ih =>
      rcases h with ⟨p, hp, code, hcode, hprobe⟩
      rcases List.mem_cons.mp hp with rfl | hmem
      · refine ⟨code, ?_⟩
        simp [uploadFilesRunWith, hprobe, uploadToBucketWith, hcode]
      · cases hq : uploadToBucketWith (probeOf q) st bucket q with
        | error e =>
            exact ⟨e, by simp [uploadFilesRunWith, hq]⟩
        | ok r =>
            rcases ih ⟨p, hmem, code, hcode, hprobe⟩ with ⟨e, he⟩
            exact ⟨e, by simp [uploadFilesRunWith, hq, he]⟩

/-- Witness for upload_probe_error_propagation: an AccessDenied probe outcome
is re-raised by the per-item operation and by the whole batch. -/
theorem upload_probe_error_propagation_witness :
    uploadToBucketWith (.clientError "AccessDenied") [] "b" ("loc", "key") =
      .error "AccessDenied" ∧
    ∃ e, uploadFilesRunWith (fun _ => .clientError "AccessDenied") [] "b"
      [("loc", "key")] = .error e := by
  refine ⟨upload_probe_error_propagation.2.1 "AccessDenied" (by decide)
    [] "b" ("loc", "key"), ?_⟩
  exact upload_probe_error_propagation.2.2
    (fun _ => .clientError "AccessDenied") [] "b" [("loc", "key")]
    ⟨("loc", "key"), by simp, "AccessDenied", by decide, rfl⟩

/-- C5: deleteBucket on a non-empty bucket with auto_empty disabled does not
attempt to empty the bucket; the provider raises BucketNotEmpty, the code
catches it and reports the distinguishable not-empty condition instead of
re-raising, and the bucket and all of its contents are left unchanged. -/
theorem deleteBucket_nonempty_reports (st : S3State) (bucket : String)
    (ks : List String) (hlk : lookupBucket st bucket = some ks)
    (hne : ks ≠ []) :
    deleteBucket st bucket false = (.notEmptyReported 0 0, st) := by
  simp [deleteBucket, s3DeleteBucket, hlk, hne]

/-- Witness for deleteBucket_nonempty_reports at a concrete non-empty
bucket. -/
theorem deleteBucket_nonempty_reports_witness :
    deleteBucket [("b", ["k"])] "b" false =
      (.notEmptyReported 0 0, [("b", ["k"])]) :=
  deleteBucket_nonempty_reports [("b", ["k"])] "b" ["k"] rfl (by decide)

/-- C6 (failing input): the claim states that deleteBucket with auto_empty
enabled deletes all contents and then the bucket, so the bucket no longer
exists afterwards.  On a bucket holding the key a&b the emptying phase sends
the escaped key a&amp;b to the provider batch delete, so the real object
survives; the provider then refuses delete_bucket with BucketNotEmpty, which
deleteBucket catches and merely reports, so the bucket still exists with its
content intact, while the counters nevertheless report one deleted file and
no errors. -/
theorem deleteBucket_autoempty_escaped_key_bug :
    formatXMLStr "a&b" = "a&amp;b" ∧
    deleteBucket [("data", ["a&b"])] "data" true =
      (.notEmptyReported 1 0, [("data", ["a&b"])]) ∧
    lookupBucket (deleteBucket [("data", ["a&b"])] "data" true).2 "data" =
      some ["a&b"] := ⟨rfl, rfl, rfl⟩

/-- C7: for a prompt of length L characters and a generated completion of
length M characters, the token counts reported by _bedrock_call are exactly
floor(L / 6) input units and floor(M / 6) output units; Nat division is that
floor, as the final two inequalities characterise. -/
theorem bedrock_token_estimate (completionOf : String → String)
    (profile_name region_name : String) (call_conf : Dict) (prompt : String) :
    (bedrock_call completionOf profile_name region_name call_conf
        prompt).2.1 = prompt.length / 6 ∧
    (bedrock_call completionOf profile_name region_name call_conf
        prompt).2.2 = (completionOf prompt).length / 6 ∧
    6 * (prompt.length / 6) ≤ prompt.length ∧
    prompt.length < 6 * (prompt.length / 6) + 6 := by
  refine ⟨rfl, rfl, ?_, ?_⟩ <;> omega

/-- C8 (failing input): the claim states that single_invoke and invoke copy
the defaults before overlaying caller overrides, leaving default_call_conf
unchanged.  In the source, self.call_conf = self.default_call_conf aliases
the defaults dict and update then mutates it in place: after single_invoke
with the override temperature 1 the stored default temperature is 1, no
longer the documented default 0, and a later single_invoke with an empty
call_conf therefore runs with temperature 1. -/
theorem single_invoke_mutates_default_conf :
    dictGet (mkBedrockModel "us-east-1" ""
        "anthropic.claude-v2:1").default_call_conf "temperature" =
      some (.int 0) ∧
    dictGet ((single_invoke
        (mkBedrockModel "us-east-1" "" "anthropic.claude-v2:1")
        (fun _ => "") "p" [("temperature", .int 1)]).1.default_call_conf)
        "temperature" = some (.int 1) ∧
    ((single_invoke ((single_invoke
        (mkBedrockModel "us-east-1" "" "anthropic.claude-v2:1")
        (fun _ => "") "p" [("temperature", .int 1)]).1)
        (fun _ => "") "q" []).1.call_conf).map
      (fun d => dictGet d "temperature") = some (some (.int 1)) := by
  refine ⟨rfl, rfl, ?_⟩
  decide

/-- C10: formatXML applies its seven replacements in the fixed source order,
so the ampersand introduced by the earlier apostrophe or quote replacement is
itself re-escaped by the later ampersand replacement: an input containing an
apostrophe yields an output containing &amp;apos; (and a double quote yields
&amp;quot;) rather than the plain escapes; an input containing any of the
seven special characters is changed by formatXML; and _deleteFromBucket sends
formatXML of each caller-supplied key to the provider, hence a key different
from the caller-supplied one whenever it contains a special character. -/
theorem formatXML_double_escapes :
    (∀ s : List Char, Char.ofNat 39 ∈ s →
        ∃ u v, formatXML s = u ++ "&amp;apos;".data ++ v) ∧
    (∀ s : List Char, '"' ∈ s →
        ∃ u v, formatXML s = u ++ "&amp;quot;".data ++ v) ∧
    (∀ s : List Char, (∃ c ∈ xmlSpecialChars, c ∈ s) → formatXML s ≠ s) ∧
    (∀ (st : S3State) (bucket : String) (paths : List String),
        deleteFromBucket st bucket paths =
          s3DeleteObjects st bucket (paths.map formatXMLStr)) ∧
    (∀ p : String, (∃ c ∈ xmlSpecialChars, c ∈ p.data) →
        formatXMLStr p ≠ p) := by
  have hchange : ∀ s : List Char, (∃ c ∈ xmlSpecialChars, c ∈ s) →
      formatXML s ≠ s := by
    rintro s ⟨c, hc, hm⟩ heq
    have hlt := length_lt_formatXML hc hm
    rw [heq] at hlt
    exact Nat.lt_irrefl _ hlt
  refine ⟨?_, ?_, hchange, fun _ _ _ => rfl, ?_⟩
  · intro s hs
    obtain ⟨a, b, rfl⟩ := List.append_of_mem hs
    refine ⟨formatXML a, formatXML b, ?_⟩
    rw [show a ++ Char.ofNat 39 :: b = (a ++ [Char.ofNat 39]) ++ b by simp,
      formatXML_append, formatXML_append,
      show formatXML [Char.ofNat 39] = "&amp;apos;".data from by decide]
  · intro s hs
    obtain ⟨a, b, rfl⟩ := List.append_of_mem hs
    refine ⟨formatXML a, formatXML b, ?_⟩
    rw [show a ++ '"' :: b = (a ++ ['"']) ++ b by simp,
      formatXML_append, formatXML_append,
      show formatXML ['"'] = "&amp;quot;".data from by decide]
  · intro p hp heq
    apply hchange p.data hp
    have h2 := congrArg String.data heq
    simpa [formatXMLStr] using h2

/-- Witness for formatXML_double_escapes at concrete keys. -/
theorem formatXML_double_escapes_witness :
    (∃ u v, formatXML [Char.ofNat 39] = u ++ "&amp;apos;".data ++ v) ∧
    (∃ u v, formatXML ['"'] = u ++ "&amp;quot;".data ++ v) ∧
    formatXML "a&b".data ≠ "a&b".data ∧
    formatXMLStr "a&b" ≠ "a&b" := by
  have h := formatXML_double_escapes
  exact ⟨h.1 [Char.ofNat 39] (by decide), h.2.1 ['"'] (by decide),
    h.2.2.1 "a&b".data ⟨'&', by decide, by decide⟩,
    h.2.2.2.2 "a&b" ⟨'&', by decide, by decide⟩⟩
